import Mathlib

/-!
Shallow embedding of the `meeting_transcription_tool` repository
(src/src/meeting_transcription_tool), covering the speaker validator,
the speaker quality analyzer, the transcript/diarization alignment,
the cache manager, the staged pipeline and the batch scheduler.

Python strings are modelled as Lean `String` (or `List Char` where the
proofs manipulate characters), Python insertion-ordered `dict[str, str]`
as association lists with distinct keys in insertion order, Python `set`
as duplicate-free lists used only through membership, Python numbers as
`Nat`/`Int`/`ℚ` as appropriate.
-/

namespace MTT

/-- Python insertion-ordered `dict[str, str]`: an association list whose
keys are pairwise distinct, kept in insertion order. -/
abbrev SDict := List (String × String)

/-- `d[k]` / `d.get(k)`: first binding of `k` (the only one for a
well-formed dict). -/
def dictGet (d : SDict) (k : String) : Option String :=
  match d with
  | [] => none
  | (k₁, v) :: rest => if k₁ = k then some v else dictGet rest k

/-- Python `dict` equality (`==`): same key set, same value at each key.
For duplicate-free association lists this is length equality plus
agreement of every binding. -/
def dictBEq (d₁ d₂ : SDict) : Bool :=
  d₁.length == d₂.length && d₁.all (fun p => dictGet d₂ p.1 == some p.2)

/-- Python `str.split(sep)` for a one-character separator, over character
lists: `splitOnChar '_' "SPEAKER_00" = ["SPEAKER", "00"]`, and the empty
string yields `[""]`, as in Python. -/
def splitOnChar (sep : Char) : List Char → List (List Char)
  | [] => [[]]
  | c :: rest =>
      let r := splitOnChar sep rest
      if c = sep then [] :: r
      else
        match r with
        | [] => [[c]]
        | g :: gs => (c :: g) :: gs

/-- `f"Speaker_{label.split('_')[-1]}"` (speaker_validator.py lines 138
and 164): the generic placeholder name derived from a label's own id. -/
def genericPlaceholder (label : String) : String :=
  "Speaker_" ++ String.mk ((splitOnChar '_' label.data).getLastD [])

/-- `filter_mentioned_names` (speaker_validator.py lines 143-166): every
mapping whose value is a member of the mentioned-only set is replaced by
the generic placeholder of its label; all other entries are kept. -/
def filter_mentioned_names (mappings : SDict) (mentioned_only_names : List String) : SDict :=
  mappings.map (fun p =>
    if p.2 ∈ mentioned_only_names then (p.1, genericPlaceholder p.1) else p)

/-- The issue messages `validate_mappings` can append, one constructor per
f-string in speaker_validator.py:
* `oneOnOneCount n` = `"1-on-1 meeting: Expected 2 speakers, but {n} mapped"`
* `autoCorrected` = `"Auto-corrected: Kept only first 2 speakers"`
* `countMismatch d m` = `"Speaker count mismatch: Diarization detected {d}, but {m} mapped"`
* `unknownDespiteNames n` = `"Found {n} 'Unknown' labels despite filename having names"`
* `mentionedWarning name` = `"Warning: '{name}' is mapped as speaker but may only be mentioned"` -/
inductive Issue where
  | oneOnOneCount (mapped : Nat)
  | autoCorrected
  | countMismatch (diarization mapped : Nat)
  | unknownDespiteNames (count : Nat)
  | mentionedWarning (name : String)
  deriving DecidableEq

/-- `SpeakerAnalysis` (speaker_quality_analyzer.py lines 15-24).  Note:
the dataclass declares *no* `mentioned_only` attribute; its fields are
exactly the seven below. -/
structure SpeakerAnalysis where
  unique_speaker_labels : List String
  speaker_count : Nat
  mentioned_names : List String
  self_introductions : SDict
  meeting_type : Option String
  quality_score : ℚ
  issues : List String
  deriving DecidableEq

/-- `ValidationResult` (speaker_validator.py lines 12-19). -/
structure ValidationResult where
  is_valid : Bool
  issues : List Issue
  needs_refinement : Bool
  corrected_mappings : Option SDict
  confidence : String
  deriving DecidableEq

/-- `needle in haystack` on Python strings: substring containment,
over character lists. -/
def listContains (needle haystack : List Char) : Bool :=
  match haystack with
  | [] => needle.isEmpty
  | _ :: rest => needle.isPrefixOf haystack || listContains needle rest

/-- `"unknown" in v.lower()` (speaker_validator.py line 70). -/
def containsUnknown (v : String) : Bool :=
  listContains "unknown".data (v.data.map Char.toLower)

/-- `validate_mappings` (speaker_validator.py lines 22-102).

Parameters mirror the source.  Within the function the `filename`
argument is consulted only through `bool(filename)` and whether
`extract_context_from_filename(filename)` yields names (check 3), so the
embedding passes that combined Boolean as `filename_has_names`.

Check 4 reads `getattr(analysis, 'mentioned_only', set())`;
`SpeakerAnalysis` declares no `mentioned_only` attribute (and no caller
ever sets one), so `getattr` always returns its default `set()`, embedded
below as the empty list bound to `mentioned_only`. -/
def validate_mappings (mappings : SDict) (diarization_speaker_count : Nat)
    (meeting_type : Option String) (filename_has_names : Bool)
    (analysis : Option SpeakerAnalysis) : ValidationResult :=
  let mapped_count := mappings.length
  -- Check 1: speaker count validation for 1-on-1
  let check1 : List Issue × Bool × SDict :=
    if meeting_type = some "1-on-1" then
      if mapped_count ≠ 2 then
        if mapped_count > 2 then
          let keys := (mappings.map Prod.fst).take 2
          ([Issue.oneOnOneCount mapped_count, Issue.autoCorrected], true,
            keys.filterMap (fun k => (dictGet mappings k).map (fun v => (k, v))))
        else
          ([Issue.oneOnOneCount mapped_count], true, mappings)
      else ([], false, mappings)
    else ([], false, mappings)
  let corrected_mappings := check1.2.2
  -- Check 2: diarization count validation
  let check2 : List Issue × Bool :=
    if mapped_count ≠ diarization_speaker_count then
      ([Issue.countMismatch diarization_speaker_count mapped_count],
        ((mapped_count : Int) - (diarization_speaker_count : Int)).natAbs > 1)
    else ([], false)
  -- Check 3: "Unknown" labels validation
  let unknown_count := (mappings.filter (fun p => containsUnknown p.2)).length
  let check3 : List Issue × Bool :=
    if unknown_count > 0 ∧ filename_has_names then
      ([Issue.unknownDespiteNames unknown_count], true)
    else ([], false)
  -- Check 4: mentioned names mapped as speakers
  -- getattr(analysis, 'mentioned_only', set()) = set(): see doc comment.
  let mentioned_only : List String := []
  let check4 : List Issue :=
    match analysis with
    | some _ =>
        mappings.filterMap (fun p =>
          if p.2 ∈ mentioned_only then some (Issue.mentionedWarning p.2) else none)
    | none => []
  let issues := check1.1 ++ check2.1 ++ check3.1 ++ check4
  let needs_refinement := check1.2.1 || check2.2 || check3.2
  let confidence :=
    if issues.length = 0 then "high"
    else if issues.length ≤ 2 ∧ needs_refinement = false then "medium"
    else "low"
  { is_valid := issues.length == 0 || (issues.length ≤ 1 && !needs_refinement)
    issues := issues
    needs_refinement := needs_refinement
    corrected_mappings := if dictBEq corrected_mappings mappings then none else some corrected_mappings
    confidence := confidence }

/-- The mappings that result from validation/auto-correction: the
`corrected_mappings` of the `ValidationResult` when produced, otherwise
the input mappings (the notion quantified over by the 1-on-1 claim). -/
def resulting_mappings (mappings : SDict) (diarization_speaker_count : Nat)
    (meeting_type : Option String) (filename_has_names : Bool)
    (analysis : Option SpeakerAnalysis) : SDict :=
  match (validate_mappings mappings diarization_speaker_count meeting_type
      filename_has_names analysis).corrected_mappings with
  | some c => c
  | none => mappings

/-- `_calculate_quality_score` (speaker_quality_analyzer.py lines
169-212).  The `filename` argument is consulted only through
`bool(filename)` and whether `extract_context_from_filename(filename)`
yields names, passed here as the Boolean `filename_has_names`.  Scores
are exact rationals standing for the Python floats. -/
def _calculate_quality_score (speaker_count : Nat) (mentioned_names : List String)
    (self_intros : SDict) (meeting_type : Option String)
    (filename_has_names : Bool) : ℚ × List String :=
  let score : ℚ := 1.0
  let issues : List String := []
  -- Check 1-on-1 validation
  let check1 : ℚ × List String :=
    if meeting_type = some "1-on-1" then
      if speaker_count ≠ 2 then
        (score - 0.3, issues ++ [s!"1-on-1 meeting but {speaker_count} speakers detected (expected 2)"])
      else (score + 0.1, issues)
    else (score, issues)
  -- Check if too many mentioned names
  let check2 : ℚ × List String :=
    if mentioned_names.length > speaker_count * 2 then
      (check1.1 - 0.2, check1.2 ++
        [s!"Many names mentioned ({mentioned_names.length}) vs {speaker_count} speakers - may cause confusion"])
    else check1
  -- Check if we have self-introductions
  let score := if self_intros ≠ [] then check2.1 + 0.1 else check2.1
  -- Check filename has names
  let score := if filename_has_names then score + 0.1 else score
  -- Normalize score
  (max 0.0 (min 1.0 score), check2.2)

/-- Keys of a duplicate-free association list resolve to their value. -/
theorem dictGet_mem {d : SDict} (hnd : (d.map Prod.fst).Nodup) {p : String × String}
    (hp : p ∈ d) : dictGet d p.1 = some p.2 := by
  induction d with
  | nil => cases hp
  | cons q rest ih =>
      rcases List.mem_cons.mp hp with h | h
      · subst h
        simp [dictGet]
      · have hq : q.1 ≠ p.1 := by
          intro hk
          have : p.1 ∈ rest.map Prod.fst := List.mem_map_of_mem Prod.fst h
          rw [← hk] at this
          exact (List.nodup_cons.mp hnd).1 this
        simp only [dictGet, if_neg hq]
        exact ih (List.nodup_cons.mp hnd).2 h

theorem dictBEq_refl {d : SDict} (hnd : (d.map Prod.fst).Nodup) : dictBEq d d = true := by
  simp only [dictBEq, beq_self_eq_true, Bool.true_and, List.all_eq_true, beq_iff_eq]
  exact fun p hp => dictGet_mem hnd hp

/-- A member of the first-two-keys restriction exists for every key. -/
theorem dictGet_isSome_of_mem_keys {d : SDict} {k : String}
    (hk : k ∈ d.map Prod.fst) : (dictGet d k).isSome := by
  induction d with
  | nil => simp at hk
  | cons q rest ih =>
      by_cases h : q.1 = k
      · simp [dictGet, h]
      · simp only [List.map_cons, List.mem_cons] at hk
        rcases hk with hk | hk
        · exact absurd hk.symm h
        · simp only [dictGet, if_neg h]
          exact ih hk


/-- `True` iff the issue is the check-4 "mentioned-only" warning of
speaker_validator.py line 85. -/
def Issue.isWarning : Issue → Bool
  | .mentionedWarning _ => true
  | _ => false

/-- Over duplicate-free keys, restricting to a sublist of present keys
keeps one binding per key. -/
theorem filterMap_dictGet_length (d : SDict) :
    ∀ (keys : List String), (∀ k ∈ keys, (dictGet d k).isSome) →
      (keys.filterMap (fun k => (dictGet d k).map (fun v => (k, v)))).length = keys.length := by
  intro keys
  induction keys with
  | nil => intro _; rfl
  | cons k rest ih =>
      intro h
      have hk := h k (List.mem_cons_self k rest)
      obtain ⟨v, hv⟩ := Option.isSome_iff_exists.mp hk
      simp only [List.filterMap_cons, hv, Option.map_some', List.length_cons]
      rw [ih (fun x hx => h x (List.mem_cons_of_mem k hx))]

/-- C1 counterexample: for the proposed mapping of size 1 (one of the
sizes the claim names explicitly) and meeting type "1-on-1",
`validate_mappings` produces no `corrected_mappings` (auto-correction
only truncates when more than 2 mappings are present), so the resulting
mappings have size 1, not 2. -/
theorem C1_counterexample :
    (resulting_mappings [("SPEAKER_00", "Alice")] 2 (some "1-on-1") false none).length ≠ 2 := by
  decide

/-- C1 (amended): for meeting type "1-on-1" and a proposed mappings dict
with at least 2 entries, the mappings that result from
validation/auto-correction have size exactly 2 (in particular for input
sizes 2, 3 and 5); a size-1 input is flagged but keeps size 1. -/
theorem C1_one_on_one_corrected_size (mappings : SDict) (diar : Nat) (fhn : Bool)
    (analysis : Option SpeakerAnalysis)
    (hnd : (mappings.map Prod.fst).Nodup) (h2 : 2 ≤ mappings.length) :
    (resulting_mappings mappings diar (some "1-on-1") fhn analysis).length = 2 := by
  rcases eq_or_lt_of_le h2 with heq | hlt
  · -- exactly two mappings: no correction is produced
    unfold resulting_mappings validate_mappings
    simp only [← heq]
    simp [dictBEq_refl hnd]
    omega
  · -- more than two: corrected to the first two keys
    unfold resulting_mappings validate_mappings
    have hne : mappings.length ≠ 2 := by omega
    have hgt : mappings.length > 2 := hlt
    simp only [if_pos rfl, if_pos hne, if_pos hgt]
    have hkeys : ∀ k ∈ (mappings.map Prod.fst).take 2, (dictGet mappings k).isSome :=
      fun k hk => dictGet_isSome_of_mem_keys (List.mem_of_mem_take hk)
    have hlen := filterMap_dictGet_length mappings ((mappings.map Prod.fst).take 2) hkeys
    have htk : ((mappings.map Prod.fst).take 2).length = 2 := by
      simp [List.length_take]
      omega
    rw [htk] at hlen
    have hbeq : dictBEq (((mappings.map Prod.fst).take 2).filterMap
        (fun k => (dictGet mappings k).map (fun v => (k, v)))) mappings = false := by
      simp only [dictBEq, Bool.and_eq_false_iff]
      left
      simp only [beq_eq_false_iff_ne, ne_eq, hlen]
      omega
    simp [hbeq, hlen]

/-- C1 witness: a size-3 input under "1-on-1" is corrected to size 2. -/
theorem C1_witness :
    (resulting_mappings [("SPEAKER_00", "A"), ("SPEAKER_01", "B"), ("SPEAKER_02", "C")]
      3 (some "1-on-1") false none).length = 2 :=
  C1_one_on_one_corrected_size _ 3 false none (by decide) (by decide)

/-- C5 counterexample: `filter_mentioned_names` can output a value that
is a member of the supplied mentioned-only set, because the generic
placeholder it substitutes may itself be a member of that set. -/
theorem C5_counterexample :
    (filter_mentioned_names [("SPEAKER_00", "Alice")] ["Alice", "Speaker_00"]
        = [("SPEAKER_00", "Speaker_00")])
    ∧ "Speaker_00" ∈ ["Alice", "Speaker_00"] := by
  decide

/-- C5 (amended): `filter_mentioned_names` returns a mapping over exactly
the same labels; every value that was a member of the mentioned-only set
is replaced by the generic placeholder derived from its label, all other
entries are unchanged; consequently a final value can be a member of the
set only by being the placeholder of its own label. -/
theorem C5_filter_mentioned_names_spec (mappings : SDict) (mentioned : List String) :
    ((filter_mentioned_names mappings mentioned).map Prod.fst = mappings.map Prod.fst)
    ∧ (∀ p ∈ mappings, p.2 ∉ mentioned → p ∈ filter_mentioned_names mappings mentioned)
    ∧ (∀ p ∈ mappings, p.2 ∈ mentioned →
        (p.1, genericPlaceholder p.1) ∈ filter_mentioned_names mappings mentioned)
    ∧ (∀ q ∈ filter_mentioned_names mappings mentioned, q.2 ∈ mentioned →
        q.2 = genericPlaceholder q.1) := by
  refine ⟨?_, ?_, ?_, ?_⟩
  · unfold filter_mentioned_names
    rw [List.map_map]
    apply List.map_congr_left
    intro p _
    by_cases h : p.2 ∈ mentioned <;> simp [h]
  · intro p hp h
    unfold filter_mentioned_names
    have : (if p.2 ∈ mentioned then (p.1, genericPlaceholder p.1) else p) = p := if_neg h
    rw [← this]
    exact List.mem_map_of_mem _ hp
  · intro p hp h
    unfold filter_mentioned_names
    have : (if p.2 ∈ mentioned then (p.1, genericPlaceholder p.1) else p)
        = (p.1, genericPlaceholder p.1) := if_pos h
    rw [← this]
    exact List.mem_map_of_mem _ hp
  · intro q hq hmem
    unfold filter_mentioned_names at hq
    obtain ⟨p, _, hpq⟩ := List.mem_map.mp hq
    by_cases h : p.2 ∈ mentioned
    · rw [if_pos h] at hpq
      rw [← hpq]
    · rw [if_neg h] at hpq
      rw [← hpq] at hmem
      exact absurd hmem h

/-- C5 witness: a mentioned-only value is replaced by the placeholder. -/
theorem C5_witness :
    (("SPEAKER_00", genericPlaceholder "SPEAKER_00")
      ∈ filter_mentioned_names [("SPEAKER_00", "Bob")] ["Bob"]) :=
  (C5_filter_mentioned_names_spec [("SPEAKER_00", "Bob")] ["Bob"]).2.2.1
    ("SPEAKER_00", "Bob") (by decide) (by decide)

/-- C6 (code bug): the claim says the check-4 rule of `validate_mappings`
records a warning issue for every mapping whose value is a mentioned-only
name.  In the code the rule reads `getattr(analysis, 'mentioned_only',
set())`, but `SpeakerAnalysis` has no `mentioned_only` attribute and no
caller ever sets one, so the set is always empty and the warning is never
emitted: (1) no input at all produces a `mentionedWarning` issue; (2) at
the failing input (mapping value "Bob" with `mentioned_names = {"Bob"}`
and no self-introductions, everything else consistent), the issue list is
empty, where the claim requires a warning. -/
theorem C6_mentioned_warning_never_emitted :
    (∀ (mappings : SDict) (diar : Nat) (mt : Option String) (fhn : Bool)
        (analysis : Option SpeakerAnalysis),
        ((validate_mappings mappings diar mt fhn analysis).issues.all
          (fun i => ! i.isWarning)) = true)
    ∧ (validate_mappings [("SPEAKER_00", "Bob"), ("SPEAKER_01", "Carol")] 2 none false
        (some { unique_speaker_labels := ["SPEAKER_00", "SPEAKER_01"], speaker_count := 2,
                mentioned_names := ["Bob"], self_introductions := [], meeting_type := none,
                quality_score := 1, issues := [] })).issues = [] := by
  constructor
  · intro mappings diar mt fhn analysis
    simp only [List.all_eq_true]
    intro i hmem
    unfold validate_mappings at hmem
    dsimp only at hmem
    repeat' split at hmem
    all_goals cases i <;> simp_all [Issue.isWarning, List.mem_filterMap]
  · decide

/-- C8: for every combination of speaker count, mentioned-names set,
self-introductions map, meeting type, and filename-derived name presence,
the quality score returned by `_calculate_quality_score` lies in
`[0, 1]` — the final clamp `max(0.0, min(1.0, score))` guarantees it. -/
theorem C8_quality_score_bounds (speaker_count : Nat) (mentioned_names : List String)
    (self_intros : SDict) (meeting_type : Option String) (fhn : Bool) :
    0 ≤ (_calculate_quality_score speaker_count mentioned_names self_intros meeting_type fhn).1
    ∧ (_calculate_quality_score speaker_count mentioned_names self_intros meeting_type fhn).1 ≤ 1 := by
  unfold _calculate_quality_score
  dsimp only
  constructor
  · exact le_trans (by norm_num) (le_max_left (0.0 : ℚ) _)
  · exact max_le (by norm_num) (le_trans (min_le_left (1.0 : ℚ) _) (by norm_num))

/-- `TranscriptSegment` (exporter.py lines 17-22): times in milliseconds. -/
structure TranscriptSegment where
  start_ms : Int
  end_ms : Int
  text : String
  speaker : String

/-- `SpeakerSegment` (diarization.py lines 17-21): a diarization turn,
times in seconds (Python floats modelled as exact rationals). -/
structure SpeakerSegment where
  start_s : ℚ
  end_s : ℚ
  speaker_label : String

/-- The raw (unfloored) overlap computed inside the loop of
`find_speaker_for_segment` (transcriber.py lines 95-99):
`min(end_ms/1000, end_s) - max(start_ms/1000, start_s)`. -/
def segOverlapRaw (w : TranscriptSegment) (d : SpeakerSegment) : ℚ :=
  min ((w.end_ms : ℚ) / 1000) d.end_s - max ((w.start_ms : ℚ) / 1000) d.start_s

/-- The loop of `find_speaker_for_segment`, with the running
`max_overlap` and `speaker_label` accumulators. -/
def findSpeakerAux (w : TranscriptSegment) :
    List SpeakerSegment → ℚ → String → String
  | [], _, speaker_label => speaker_label
  | dia :: rest, max_overlap, speaker_label =>
      let overlap_duration := segOverlapRaw w dia
      if overlap_duration > max_overlap then
        findSpeakerAux w rest overlap_duration dia.speaker_label
      else
        findSpeakerAux w rest max_overlap speaker_label

/-- `find_speaker_for_segment` (transcriber.py lines 89-105):
`max_overlap` starts at `0`, `speaker_label` at `"Unknown"`. -/
def find_speaker_for_segment (w : TranscriptSegment)
    (diarization_segments : List SpeakerSegment) : String :=
  findSpeakerAux w diarization_segments 0 "Unknown"

/-- The temporal overlap in the claim's sense, floored at `0`. -/
def overlap (w : TranscriptSegment) (d : SpeakerSegment) : ℚ :=
  max 0 (segOverlapRaw w d)

theorem findSpeakerAux_const (w : TranscriptSegment) :
    ∀ (ds : List SpeakerSegment) (m : ℚ) (lab : String),
      (∀ d ∈ ds, segOverlapRaw w d ≤ m) → findSpeakerAux w ds m lab = lab := by
  intro ds
  induction ds with
  | nil => intro m lab _; rfl
  | cons dia rest ih =>
      intro m lab hall
      have hd : ¬ (segOverlapRaw w dia > m) :=
        not_lt.mpr (hall dia (List.mem_cons_self dia rest))
      simp only [findSpeakerAux, if_neg hd]
      exact ih m lab (fun d hd₂ => hall d (List.mem_cons_of_mem dia hd₂))

theorem findSpeakerAux_argmax (w : TranscriptSegment) :
    ∀ (ds : List SpeakerSegment) (m : ℚ) (lab : String),
      (∃ d ∈ ds, m < segOverlapRaw w d) →
      ∃ i : Fin ds.length,
        findSpeakerAux w ds m lab = (ds.get i).speaker_label
        ∧ m < segOverlapRaw w (ds.get i)
        ∧ (∀ d ∈ ds, segOverlapRaw w d ≤ segOverlapRaw w (ds.get i))
        ∧ (∀ j : Fin ds.length, j < i →
            segOverlapRaw w (ds.get j) < segOverlapRaw w (ds.get i)) := by
  intro ds
  induction ds with
  | nil => intro m lab h; simp at h
  | cons dia rest ih =>
      intro m lab hex
      by_cases hd : segOverlapRaw w dia > m
      · simp only [findSpeakerAux, if_pos hd]
        by_cases hrest : ∃ d ∈ rest, segOverlapRaw w dia < segOverlapRaw w d
        · obtain ⟨i, hi1, hi2, hi3, hi4⟩ :=
            ih (segOverlapRaw w dia) dia.speaker_label hrest
          refine ⟨⟨i.val + 1, by simp⟩, ?_, ?_, ?_, ?_⟩
          · simpa using hi1
          · exact lt_trans hd (by simpa using hi2)
          · intro d hmem
            rcases List.mem_cons.mp hmem with h | h
            · subst h
              exact le_of_lt (by simpa using hi2)
            · simpa using hi3 d h
          · intro j hj
            rcases j with ⟨jv, hjlt⟩
            match jv with
            | 0 =>
                simp only [List.get]
                exact lt_of_lt_of_le hi2 (le_refl _)
            | Nat.succ k =>
                have hk : (⟨k, by simpa using hjlt⟩ : Fin rest.length) < i := by
                  simpa [Fin.lt_def] using hj
                simpa using hi4 ⟨k, by simpa using hjlt⟩ hk
        · push_neg at hrest
          have heq := findSpeakerAux_const w rest (segOverlapRaw w dia)
            dia.speaker_label hrest
          refine ⟨⟨0, by simp⟩, by simpa [findSpeakerAux] using heq, by simpa using hd, ?_, ?_⟩
          · intro d hmem
            rcases List.mem_cons.mp hmem with h | h
            · subst h; simp
            · simpa using hrest d h
          · intro j hj
            exact absurd hj (by simp [Fin.lt_def])
      · simp only [findSpeakerAux, if_neg hd]
        have hex₂ : ∃ d ∈ rest, m < segOverlapRaw w d := by
          obtain ⟨d, hmem, hlt⟩ := hex
          rcases List.mem_cons.mp hmem with h | h
          · subst h; exact absurd hlt (by simpa using hd)
          · exact ⟨d, h, hlt⟩
        obtain ⟨i, hi1, hi2, hi3, hi4⟩ := ih m lab hex₂
        have hdle : segOverlapRaw w dia ≤ m := not_lt.mp hd
        refine ⟨⟨i.val + 1, by simp⟩, by simpa using hi1,
          by simpa using hi2, ?_, ?_⟩
        · intro d hmem
          rcases List.mem_cons.mp hmem with h | h
          · subst h
            exact le_of_lt (lt_of_le_of_lt hdle (by simpa using hi2))
          · simpa using hi3 d h
        · intro j hj
          rcases j with ⟨jv, hjlt⟩
          match jv with
          | 0 =>
              simp only [List.get]
              exact lt_of_le_of_lt hdle hi2
          | Nat.succ k =>
              have hk : (⟨k, by simpa using hjlt⟩ : Fin rest.length) < i := by
                simpa [Fin.lt_def] using hj
              simpa using hi4 ⟨k, by simpa using hjlt⟩ hk


/-- C2: for every transcript segment and diarization turn list,
`find_speaker_for_segment` returns the label of a turn whose floored
temporal overlap with the segment is maximal; among turns of equal
maximal positive overlap the first-encountered turn in diarization-list
order is chosen (every earlier turn has strictly smaller overlap); and if
every turn's overlap is 0 (in particular for an empty list), the result
is exactly "Unknown". -/
theorem C2_alignment_spec (w : TranscriptSegment) (ds : List SpeakerSegment) :
    ((∀ d ∈ ds, overlap w d = 0) → find_speaker_for_segment w ds = "Unknown")
    ∧ ((∃ d ∈ ds, 0 < overlap w d) →
        ∃ i : Fin ds.length,
          find_speaker_for_segment w ds = (ds.get i).speaker_label
          ∧ 0 < overlap w (ds.get i)
          ∧ (∀ d ∈ ds, overlap w d ≤ overlap w (ds.get i))
          ∧ (∀ j : Fin ds.length, j < i →
              overlap w (ds.get j) < overlap w (ds.get i))) := by
  constructor
  · intro hall
    apply findSpeakerAux_const
    intro d hd
    have := hall d hd
    unfold overlap at this
    have h0 : segOverlapRaw w d ≤ 0 := by
      by_contra hpos
      push_neg at hpos
      rw [max_eq_right (le_of_lt hpos)] at this
      exact absurd this (ne_of_gt hpos)
    exact h0
  · intro hex
    have hex' : ∃ d ∈ ds, (0 : ℚ) < segOverlapRaw w d := by
      obtain ⟨d, hd, hpos⟩ := hex
      refine ⟨d, hd, ?_⟩
      unfold overlap at hpos
      rcases lt_max_iff.mp hpos with h | h
      · exact absurd h (lt_irrefl 0)
      · exact h
    obtain ⟨i, hi1, hi2, hi3, hi4⟩ := findSpeakerAux_argmax w ds 0 "Unknown" hex'
    have hIpos : (0 : ℚ) < segOverlapRaw w (ds.get i) := hi2
    have hIov : overlap w (ds.get i) = segOverlapRaw w (ds.get i) :=
      max_eq_right (le_of_lt hIpos)
    refine ⟨i, hi1, ?_, ?_, ?_⟩
    · rw [hIov]; exact hIpos
    · intro d hd
      rw [hIov]
      unfold overlap
      exact max_le (le_of_lt hIpos) (hi3 d hd)
    · intro j hj
      rw [hIov]
      unfold overlap
      exact max_lt hIpos (hi4 j hj)


/-- C2 witness: a segment overlapping no turn is labelled "Unknown". -/
theorem C2_witness :
    find_speaker_for_segment ⟨0, 1000, "", "Unknown"⟩ [⟨2, 3, "SPEAKER_00"⟩] = "Unknown" :=
  (C2_alignment_spec ⟨0, 1000, "", "Unknown"⟩ [⟨2, 3, "SPEAKER_00"⟩]).1 (by
    intro d hd
    simp only [List.mem_singleton] at hd
    subst hd
    norm_num [overlap, segOverlapRaw])

/-- Unique labels in first-occurrence order: the key order of Python
`set(...)` / `collections.Counter(...)` built from a list.  Only the
number of distinct labels and membership are consumed. -/
def insertionDedupAux (seen : List String) : List String → List String
  | [] => []
  | x :: xs =>
      if x ∈ seen then insertionDedupAux seen xs
      else x :: insertionDedupAux (x :: seen) xs

/-- `set(diarization_labels)` / Counter key order (first occurrence). -/
def insertionDedup (l : List String) : List String := insertionDedupAux [] l

/-- First attainer of the maximum of `f` over a list (ties resolved to
the earlier element), mirroring the stable descending order of
`Counter.most_common`. -/
def argmaxFirst (f : String → Nat) : List String → Option String
  | [] => none
  | x :: xs =>
      match argmaxFirst f xs with
      | none => some x
      | some y => if f y > f x then some y else some x

/-- `Counter(diarization_labels).most_common(2)` (speaker_validator.py
lines 127-129): the first two labels of the stable sort of the counter's
keys (first-occurrence order) by descending count — i.e. the first
attainer of the maximal count followed by the first attainer of the
maximal count among the remaining labels. -/
def most_common_two (diarization_labels : List String) : List String :=
  let uniq := insertionDedup diarization_labels
  match argmaxFirst (fun l => diarization_labels.count l) uniq with
  | none => []
  | some l1 =>
      match argmaxFirst (fun l => diarization_labels.count l) (uniq.erase l1) with
      | none => [l1]
      | some l2 => [l1, l2]

/-- `enforce_one_on_one` (speaker_validator.py lines 105-140). -/
def enforce_one_on_one (mappings : SDict) (diarization_labels : List String) : SDict :=
  let unique_labels := insertionDedup diarization_labels
  if unique_labels.length ≤ 2 then mappings
  else
    (most_common_two diarization_labels).map (fun label =>
      match dictGet mappings label with
      | some v => (label, v)
      | none => (label, genericPlaceholder label))

theorem mem_insertionDedupAux (a : String) :
    ∀ (l seen : List String), a ∈ insertionDedupAux seen l ↔ (a ∈ l ∧ a ∉ seen) := by
  intro l
  induction l with
  | nil => intro seen; simp [insertionDedupAux]
  | cons x xs ih =>
      intro seen
      by_cases hx : x ∈ seen
      · simp only [insertionDedupAux, if_pos hx, ih, List.mem_cons]
        constructor
        · rintro ⟨h1, h2⟩; exact ⟨Or.inr h1, h2⟩
        · rintro ⟨h1 | h1, h2⟩
          · subst h1; exact absurd hx h2
          · exact ⟨h1, h2⟩
      · simp only [insertionDedupAux, if_neg hx, List.mem_cons, ih]
        constructor
        · rintro (h | ⟨h1, h2⟩)
          · subst h; exact ⟨Or.inl rfl, hx⟩
          · simp only [List.mem_cons, not_or] at h2
            exact ⟨Or.inr h1, h2.2⟩
        · rintro ⟨h1 | h1, h2⟩
          · subst h1; exact Or.inl rfl
          · by_cases hax : a = x
            · subst hax; exact Or.inl rfl
            · exact Or.inr ⟨h1, by simp [List.mem_cons, hax, h2]⟩

theorem mem_insertionDedup {a : String} {l : List String} :
    a ∈ insertionDedup l ↔ a ∈ l := by
  simp [insertionDedup, mem_insertionDedupAux]

theorem nodup_insertionDedupAux :
    ∀ (l seen : List String), (insertionDedupAux seen l).Nodup := by
  intro l
  induction l with
  | nil => intro seen; simp [insertionDedupAux]
  | cons x xs ih =>
      intro seen
      by_cases hx : x ∈ seen
      · simpa [insertionDedupAux, if_pos hx] using ih seen
      · simp only [insertionDedupAux, if_neg hx, List.nodup_cons]
        refine ⟨?_, ih (x :: seen)⟩
        intro hmem
        exact ((mem_insertionDedupAux x xs (x :: seen)).mp hmem).2 (List.mem_cons_self x seen)

theorem nodup_insertionDedup (l : List String) : (insertionDedup l).Nodup :=
  nodup_insertionDedupAux l []

theorem argmaxFirst_isSome (f : String → Nat) :
    ∀ (l : List String), l ≠ [] → (argmaxFirst f l).isSome := by
  intro l h
  cases l with
  | nil => exact absurd rfl h
  | cons x xs =>
      simp only [argmaxFirst]
      rcases argmaxFirst f xs with _ | z
      · simp
      · by_cases hgt : f z > f x <;> simp [hgt]

theorem argmaxFirst_spec (f : String → Nat) :
    ∀ (l : List String) (y : String), argmaxFirst f l = some y →
      y ∈ l ∧ ∀ x ∈ l, f x ≤ f y := by
  intro l
  induction l with
  | nil => intro y h; simp [argmaxFirst] at h
  | cons x xs ih =>
      intro y h
      rcases hrec : argmaxFirst f xs with _ | z
      · simp only [argmaxFirst, hrec, Option.some.injEq] at h
        subst h
        have hnil : xs = [] := by
          cases xs with
          | nil => rfl
          | cons b bs =>
              have hs := argmaxFirst_isSome f (b :: bs) (by simp)
              rw [hrec] at hs
              simp at hs
        subst hnil
        exact ⟨List.mem_cons_self _ _, by intro a ha; simp at ha; subst ha; exact le_refl _⟩
      · simp only [argmaxFirst, hrec] at h
        obtain ⟨hz1, hz2⟩ := ih z hrec
        by_cases hgt : f z > f x
        · rw [if_pos hgt] at h
          simp only [Option.some.injEq] at h
          subst h
          refine ⟨List.mem_cons_of_mem x hz1, ?_⟩
          intro a ha
          rcases List.mem_cons.mp ha with h1 | h1
          · subst h1; exact le_of_lt hgt
          · exact hz2 a h1
        · rw [if_neg hgt] at h
          simp only [Option.some.injEq] at h
          subst h
          refine ⟨List.mem_cons_self _ _, ?_⟩
          intro a ha
          rcases List.mem_cons.mp ha with h1 | h1
          · subst h1; exact le_refl _
          · exact le_trans (hz2 a h1) (not_lt.mp hgt)



/-- C3 counterexample: with three unique diarization labels (counts
2, 2, 1) and all three labels mapped, `enforce_one_on_one` returns only
the two most frequent labels; the original label "SPEAKER_02" is
silently dropped from the result instead of being relabelled to a
generic placeholder. -/
theorem C3_counterexample :
    ("SPEAKER_02" ∈ ["SPEAKER_00", "SPEAKER_00", "SPEAKER_01", "SPEAKER_01", "SPEAKER_02"]
      ∧ dictGet [("SPEAKER_00", "Alice"), ("SPEAKER_01", "Bob"), ("SPEAKER_02", "Carol")]
          "SPEAKER_02" = some "Carol")
    ∧ enforce_one_on_one
        [("SPEAKER_00", "Alice"), ("SPEAKER_01", "Bob"), ("SPEAKER_02", "Carol")]
        ["SPEAKER_00", "SPEAKER_00", "SPEAKER_01", "SPEAKER_01", "SPEAKER_02"]
        = [("SPEAKER_00", "Alice"), ("SPEAKER_01", "Bob")] := by
  decide

/-- C3 (amended): when the diarization label set has more than two unique
members, `enforce_one_on_one` returns a mapping whose labels are exactly
the two most frequent diarization labels by segment count (first: count ≥
every label's count; second: count ≥ every other label's count; ties by
first occurrence), each mapped to its original value when present in the
input mapping and otherwise to the generic placeholder derived from its
own label id.  Original labels outside the top two are dropped from the
result, not relabelled. -/
theorem C3_enforce_one_on_one_top2 (mappings : SDict) (labels : List String)
    (h3 : 2 < (insertionDedup labels).length) :
    ∃ l1 l2, l1 ≠ l2 ∧ l1 ∈ labels ∧ l2 ∈ labels
      ∧ (enforce_one_on_one mappings labels).map Prod.fst = [l1, l2]
      ∧ (∀ l ∈ labels, labels.count l ≤ labels.count l1)
      ∧ (∀ l ∈ labels, l ≠ l1 → labels.count l ≤ labels.count l2)
      ∧ (∀ p ∈ enforce_one_on_one mappings labels,
          p.2 = (dictGet mappings p.1).getD (genericPlaceholder p.1)) := by
  have hnodup := nodup_insertionDedup labels
  have hne : insertionDedup labels ≠ [] := by
    intro h; rw [h] at h3; simp at h3
  obtain ⟨l1, hl1⟩ := Option.isSome_iff_exists.mp
    (argmaxFirst_isSome (fun l => labels.count l) (insertionDedup labels) hne)
  obtain ⟨hl1mem, hl1max⟩ := argmaxFirst_spec _ _ _ hl1
  have herase_ne : (insertionDedup labels).erase l1 ≠ [] := by
    intro h
    have hlen := List.length_erase_of_mem hl1mem
    rw [h] at hlen
    simp at hlen
    omega
  obtain ⟨l2, hl2⟩ := Option.isSome_iff_exists.mp
    (argmaxFirst_isSome (fun l => labels.count l) ((insertionDedup labels).erase l1) herase_ne)
  obtain ⟨hl2mem, hl2max⟩ := argmaxFirst_spec _ _ _ hl2
  have hl2mem₂ : l2 ∈ insertionDedup labels := List.mem_of_mem_erase hl2mem
  have hl12 : l1 ≠ l2 := by
    intro h
    subst h
    exact ((List.Nodup.mem_erase_iff hnodup).mp hl2mem).1 rfl
  have hmc : most_common_two labels = [l1, l2] := by
    unfold most_common_two
    simp only [hl1, hl2]
  have henf : enforce_one_on_one mappings labels
      = (most_common_two labels).map (fun label =>
          match dictGet mappings label with
          | some v => (label, v)
          | none => (label, genericPlaceholder label)) := by
    unfold enforce_one_on_one
    rw [if_neg (by omega)]
  have hfst : ∀ l : String,
      ((match dictGet mappings l with
        | some v => (l, v)
        | none => (l, genericPlaceholder l)) : String × String).1 = l := by
    intro l
    rcases h : dictGet mappings l with _ | v <;> simp [h]
  have hval : ∀ l : String,
      ((match dictGet mappings l with
        | some v => (l, v)
        | none => (l, genericPlaceholder l)) : String × String).2
      = (dictGet mappings l).getD (genericPlaceholder l) := by
    intro l
    rcases h : dictGet mappings l with _ | v <;> simp [h]
  refine ⟨l1, l2, hl12, mem_insertionDedup.mp hl1mem, mem_insertionDedup.mp hl2mem₂,
    ?_, ?_, ?_, ?_⟩
  · rw [henf, hmc, List.map_map]
    simp only [List.map_cons, List.map_nil, Function.comp_apply, hfst]
  · intro l hl
    exact hl1max l (mem_insertionDedup.mpr hl)
  · intro l hl hne1
    exact hl2max l ((List.Nodup.mem_erase_iff hnodup).mpr ⟨hne1, mem_insertionDedup.mpr hl⟩)
  · intro p hp
    rw [henf, hmc] at hp
    simp only [List.map_cons, List.map_nil, List.mem_cons, List.not_mem_nil, or_false] at hp
    rcases hp with hp | hp <;> (subst hp; rw [hfst, hval])

/-- C3 witness: the amended theorem at a concrete input with three
unique labels. -/
theorem C3_witness :
    ∃ l1 l2, l1 ≠ l2
      ∧ l1 ∈ ["SPEAKER_00", "SPEAKER_00", "SPEAKER_01", "SPEAKER_01", "SPEAKER_02"]
      ∧ l2 ∈ ["SPEAKER_00", "SPEAKER_00", "SPEAKER_01", "SPEAKER_01", "SPEAKER_02"]
      ∧ (enforce_one_on_one [("SPEAKER_00", "Alice")]
          ["SPEAKER_00", "SPEAKER_00", "SPEAKER_01", "SPEAKER_01", "SPEAKER_02"]).map Prod.fst
        = [l1, l2]
      ∧ (∀ l ∈ ["SPEAKER_00", "SPEAKER_00", "SPEAKER_01", "SPEAKER_01", "SPEAKER_02"],
          List.count l ["SPEAKER_00", "SPEAKER_00", "SPEAKER_01", "SPEAKER_01", "SPEAKER_02"]
          ≤ List.count l1 ["SPEAKER_00", "SPEAKER_00", "SPEAKER_01", "SPEAKER_01", "SPEAKER_02"])
      ∧ (∀ l ∈ ["SPEAKER_00", "SPEAKER_00", "SPEAKER_01", "SPEAKER_01", "SPEAKER_02"], l ≠ l1 →
          List.count l ["SPEAKER_00", "SPEAKER_00", "SPEAKER_01", "SPEAKER_01", "SPEAKER_02"]
          ≤ List.count l2 ["SPEAKER_00", "SPEAKER_00", "SPEAKER_01", "SPEAKER_01", "SPEAKER_02"])
      ∧ (∀ p ∈ enforce_one_on_one [("SPEAKER_00", "Alice")]
            ["SPEAKER_00", "SPEAKER_00", "SPEAKER_01", "SPEAKER_01", "SPEAKER_02"],
          p.2 = (dictGet [("SPEAKER_00", "Alice")] p.1).getD (genericPlaceholder p.1)) :=
  C3_enforce_one_on_one_top2 [("SPEAKER_00", "Alice")]
    ["SPEAKER_00", "SPEAKER_00", "SPEAKER_01", "SPEAKER_01", "SPEAKER_02"] (by decide)


/-- `ProcessingMetrics` (cli.py): modelled by its total time only; the
batch aggregation consumes nothing else that the claim concerns. -/
structure ProcessingMetrics where
  total_time : ℚ
  deriving DecidableEq

/-- The `(filename, success, error, metrics)` tuple returned by
`process_file` (cli.py lines 220-250). -/
structure FileRecord where
  filename : String
  success : Bool
  error : Option String
  metrics : Option ProcessingMetrics
  deriving DecidableEq

/-- `process_file` (cli.py lines 220-250): runs `_process_single_file`
on one audio file inside `try/except Exception`; a raised exception is
converted at this task boundary into a `(filename, False, str(e), None)`
record, a normal return into `(filename, True, None, metrics)`.  The
fallible per-file pipeline is the parameter `run`, with `Except`
modelling a Python exception. -/
def process_file (run : String → Except String ProcessingMetrics)
    (audio_file : String) : FileRecord :=
  match run audio_file with
  | .ok metrics => ⟨audio_file, true, none, some metrics⟩
  | .error e => ⟨audio_file, false, some e, none⟩

/-- The per-file records collected by the `as_completed` loop of
`_batch_transcribe` (cli.py lines 252-273): every submitted future is
consumed exactly once; the model collects them in submission order (the
aggregates below are order-insensitive). -/
def batch_records (run : String → Except String ProcessingMetrics)
    (audio_files : List String) : List FileRecord :=
  audio_files.map (process_file run)

/-- The batch-level aggregate state of `_batch_transcribe` after the
loop: `success_count`, `failed_files`, `all_metrics`. -/
structure BatchReport where
  success_count : Nat
  failed_files : List String
  all_metrics : List ProcessingMetrics
  deriving DecidableEq

/-- `_batch_transcribe` (cli.py lines 252-288): the loop increments
`success_count` and collects metrics when `success and metrics`, and
appends to `failed_files` otherwise; the function returns normally with
these aggregates. -/
def _batch_transcribe (run : String → Except String ProcessingMetrics)
    (audio_files : List String) : BatchReport :=
  let records := batch_records run audio_files
  { success_count := (records.filter (fun r => r.success && r.metrics.isSome)).length
    failed_files :=
      (records.filter (! (fun r : FileRecord => r.success && r.metrics.isSome) ·)).map
        FileRecord.filename
    all_metrics := records.filterMap FileRecord.metrics }

/-- C7: in batch mode, a per-file exception is caught at that file's task
boundary and becomes a `(filename, success=false, error)` record; every
file (failed or not) is reported exactly once, successful files keep
their metrics record, and the batch aggregation accounts for every file
(`success_count + |failed_files| = |audio_files|`) — the batch call
returns normally for every `run`, by totality of the model. -/
theorem C7_batch_failure_isolation (run : String → Except String ProcessingMetrics)
    (audio_files : List String) :
    ((batch_records run audio_files).map FileRecord.filename = audio_files)
    ∧ (∀ f ∈ audio_files, ∀ e, run f = .error e →
        (⟨f, false, some e, none⟩ : FileRecord) ∈ batch_records run audio_files)
    ∧ (∀ f ∈ audio_files, ∀ m, run f = .ok m →
        (⟨f, true, none, some m⟩ : FileRecord) ∈ batch_records run audio_files)
    ∧ (_batch_transcribe run audio_files).success_count
        + (_batch_transcribe run audio_files).failed_files.length
        = audio_files.length := by
  refine ⟨?_, ?_, ?_, ?_⟩
  · unfold batch_records
    rw [List.map_map]
    conv_rhs => rw [← List.map_id audio_files]
    apply List.map_congr_left
    intro f _
    rcases h : run f with e | m <;> simp [process_file, h]
  · intro f hf e he
    have : process_file run f = ⟨f, false, some e, none⟩ := by
      unfold process_file
      rw [he]
    rw [← this]
    exact List.mem_map_of_mem _ hf
  · intro f hf m hm
    have : process_file run f = ⟨f, true, none, some m⟩ := by
      unfold process_file
      rw [hm]
    rw [← this]
    exact List.mem_map_of_mem _ hf
  · have hsplit := List.length_eq_length_filter_add
      (l := batch_records run audio_files) (fun r => r.success && r.metrics.isSome)
    unfold _batch_transcribe
    simp only [List.length_map]
    rw [← hsplit]
    simp [batch_records]

/-- C7 witness: one failing file among two is reported as a failure
record and the other still succeeds. -/
theorem C7_witness :
    ((⟨"b.m4a", false, some "boom", none⟩ : FileRecord)
      ∈ batch_records
          (fun f => if f = "b.m4a" then .error "boom" else .ok ⟨1⟩)
          ["a.m4a", "b.m4a"])
    ∧ ((⟨"a.m4a", true, none, some ⟨1⟩⟩ : FileRecord)
      ∈ batch_records
          (fun f => if f = "b.m4a" then .error "boom" else .ok ⟨1⟩)
          ["a.m4a", "b.m4a"]) :=
  ⟨(C7_batch_failure_isolation
      (fun f => if f = "b.m4a" then .error "boom" else .ok ⟨1⟩)
      ["a.m4a", "b.m4a"]).2.1 "b.m4a" (by decide) "boom" rfl,
   (C7_batch_failure_isolation
      (fun f => if f = "b.m4a" then .error "boom" else .ok ⟨1⟩)
      ["a.m4a", "b.m4a"]).2.2.1 "a.m4a" (by decide) ⟨1⟩ rfl⟩


/-- The fields of a stored Stage-1 artifact that `is_stage1_cached`
consults: `cache_data["audio_file"]` and `cache_data["metadata"]["model"]`
(cache_manager.py lines 99-107).  The rest of the artifact is never read
by the hit decision. -/
structure Stage1CacheData where
  audio_file : String
  metadata_model : String
  deriving DecidableEq

/-- `Path(audio_path).stem`: the last path component without its last
extension. -/
def pathStem (p : String) : String :=
  let base := (splitOnChar '/' p.data).getLastD []
  let parts := splitOnChar '.' base
  if parts.length ≤ 1 then String.mk base
  else String.mk (List.intercalate ['.'] parts.dropLast)

/-- `get_stage1_cache_path` (cache_manager.py lines 71-74):
`os.path.join(output_dir, f"{base_name}_stage1_transcript.json")`. -/
def get_stage1_cache_path (audio_path output_dir : String) : String :=
  output_dir ++ "/" ++ pathStem audio_path ++ "_stage1_transcript.json"

set_option linter.unusedVariables false in
/-- `is_stage1_cached` (cache_manager.py lines 83-114).

`normpath`/`abspath` are the external `os.path` functions, passed as
parameters; `fs` models the file system at the cache path: `none` = the
file does not exist, `some none` = it exists but fails to parse (the
`except` path), `some (some d)` = it parses with the consulted fields
`d`.  Note the decision reads only the recorded audio path and recorded
model; the `language` and `temperature` keyword arguments are accepted
(the call site in pipeline_stages.py lines 74-80 passes them) but never
consulted. -/
def is_stage1_cached (normpath abspath : String → String)
    (fs : String → Option (Option Stage1CacheData))
    (audio_path output_dir : String)
    (whisper_model : String) (language : Option String) (temperature : ℚ) :
    Bool × Option String :=
  let cache_path := get_stage1_cache_path audio_path output_dir
  match fs cache_path with
  | some (some cache_data) =>
      if normpath cache_data.audio_file = normpath (abspath audio_path) then
        if cache_data.metadata_model = whisper_model then (true, some cache_path)
        else (false, none)
      else (false, none)
  | _ => (false, none)

/-- The outcome of Stage 1: either the cached artifact path is returned
as-is, or the transcription pipeline runs and a fresh artifact is written
at the output path. -/
inductive Stage1Result where
  | cached (path : String)
  | computed (path : String)
  deriving DecidableEq

/-- `stage1_transcribe_and_diarize` (pipeline_stages.py lines 45-83,
cache-decision part): with `use_cache` set, a cache hit returns the
cached path immediately (`return cache_path`), skipping the whole
transcription pipeline; otherwise the pipeline runs and writes
`output_file` (which equals the Stage-1 cache path). -/
def stage1_transcribe_and_diarize (normpath abspath : String → String)
    (fs : String → Option (Option Stage1CacheData))
    (audio_path output_dir : String)
    (whisper_model : String) (language : Option String) (temperature : ℚ)
    (use_cache : Bool) : Stage1Result :=
  let output_file := output_dir ++ "/" ++ pathStem audio_path ++ "_stage1_transcript.json"
  if use_cache then
    match is_stage1_cached normpath abspath fs audio_path output_dir
        whisper_model language temperature with
    | (true, some cache_path) => .cached cache_path
    | _ => .computed output_file
  else .computed output_file

/-- C9: the Stage-1 cache-hit decision consults only the stored
artifact's recorded audio-file path and recorded whisper model.  For
every existing artifact whose recorded path and model match, an
invocation with any language and any temperature is a hit returning the
cached path (and Stage 1 returns the cached artifact without
recomputation); and the decision is literally identical for any two
choices of language/temperature. -/
theorem C9_stage1_cache_hit_ignores_language_temperature
    (normpath abspath : String → String) (fs : String → Option (Option Stage1CacheData))
    (audio_path output_dir whisper_model : String)
    (l₁ l₂ : Option String) (t₁ t₂ : ℚ) (cd : Stage1CacheData)
    (hfs : fs (get_stage1_cache_path audio_path output_dir) = some (some cd))
    (hpath : normpath cd.audio_file = normpath (abspath audio_path))
    (hmodel : cd.metadata_model = whisper_model) :
    is_stage1_cached normpath abspath fs audio_path output_dir whisper_model l₁ t₁
      = (true, some (get_stage1_cache_path audio_path output_dir))
    ∧ stage1_transcribe_and_diarize normpath abspath fs audio_path output_dir
        whisper_model l₁ t₁ true
      = .cached (get_stage1_cache_path audio_path output_dir)
    ∧ is_stage1_cached normpath abspath fs audio_path output_dir whisper_model l₁ t₁
      = is_stage1_cached normpath abspath fs audio_path output_dir whisper_model l₂ t₂ := by
  have h1 : is_stage1_cached normpath abspath fs audio_path output_dir whisper_model l₁ t₁
      = (true, some (get_stage1_cache_path audio_path output_dir)) := by
    unfold is_stage1_cached
    simp [hfs, hpath, hmodel]
  refine ⟨h1, ?_, rfl⟩
  unfold stage1_transcribe_and_diarize
  simp [h1]

/-- C9 witness: a concrete artifact recorded for `whisper-1` is a hit
under two different language/temperature pairs. -/
theorem C9_witness :
    is_stage1_cached id id
      (fun p => if p = "out/a_stage1_transcript.json"
        then some (some ⟨"a.m4a", "whisper-1"⟩) else none)
      "a.m4a" "out" "whisper-1" none 0
      = (true, some (get_stage1_cache_path "a.m4a" "out"))
    ∧ stage1_transcribe_and_diarize id id
        (fun p => if p = "out/a_stage1_transcript.json"
          then some (some ⟨"a.m4a", "whisper-1"⟩) else none)
        "a.m4a" "out" "whisper-1" none 0 true
      = .cached (get_stage1_cache_path "a.m4a" "out")
    ∧ is_stage1_cached id id
        (fun p => if p = "out/a_stage1_transcript.json"
          then some (some ⟨"a.m4a", "whisper-1"⟩) else none)
        "a.m4a" "out" "whisper-1" none 0
      = is_stage1_cached id id
          (fun p => if p = "out/a_stage1_transcript.json"
            then some (some ⟨"a.m4a", "whisper-1"⟩) else none)
          "a.m4a" "out" "whisper-1" (some "en") 1 :=
  C9_stage1_cache_hit_ignores_language_temperature id id _ "a.m4a" "out" "whisper-1"
    none (some "en") 0 1 ⟨"a.m4a", "whisper-1"⟩ (by decide) rfl rfl


/-- JSON string escaping as `json.dumps` performs it on the quote and
backslash characters; the full encoder also escapes control and
non-ASCII characters, which the injectivity hypotheses below exclude
(hex digests, model names, language tags and float renderings are plain
ASCII without quotes or backslashes). -/
def jsonEscapeChar (c : Char) : List Char :=
  if c = '"' ∨ c = '\\' then ['\\', c] else [c]

/-- A JSON string literal: `"` + escaped content + `"`. -/
def jsonStringLit (s : List Char) : List Char :=
  '"' :: (s.flatMap jsonEscapeChar ++ ['"'])

/-- `json.dumps` of an optional string: `null` for Python `None`. -/
def jsonOptStringLit : Option (List Char) → List Char
  | none => "null".data
  | some s => jsonStringLit s

/-- `json.dumps({"model": …, "language": …, "temperature": …},
sort_keys=True)` (cache_manager.py lines 50-66): keys in sorted order
`language < model < temperature`, default `", "`/`": "` separators.
`temperature` stands for the JSON rendering of the Python float
(distinct floats render distinctly). -/
def stage1ParamStr (model : List Char) (language : Option (List Char))
    (temperature : List Char) : List Char :=
  "\x7b\"language\": ".data ++ (jsonOptStringLit language
    ++ (", \"model\": ".data ++ (jsonStringLit model
      ++ (", \"temperature\": ".data ++ (temperature ++ ['\x7d'])))))

/-- `combined = f"{stage}:{file_hash}:{mtime}:{param_str}"`
(cache_manager.py line 67) for `stage="stage1"`; `file_hash` is the
output of `compute_file_hash` (a hex digest, or `""` on read failure),
`mtime` the rendering of the float `os.path.getmtime(audio_path)`
(or `0`). -/
def stage1Combined (file_hash mtime model : List Char)
    (language : Option (List Char)) (temperature : List Char) : List Char :=
  "stage1".data ++ (':' :: (file_hash ++ (':' :: (mtime ++ (':' ::
    stage1ParamStr model language temperature)))))

/-- `get_cache_key` (cache_manager.py lines 30-68) specialized to
`stage="stage1"`: `hashlib.sha256(combined.encode()).hexdigest()[:16]`,
with the external `hexdigest ∘ sha256` passed as the parameter `H`. -/
def get_cache_key_stage1 (H : List Char → List Char)
    (file_hash mtime model : List Char) (language : Option (List Char))
    (temperature : List Char) : List Char :=
  (H (stage1Combined file_hash mtime model language temperature)).take 16

theorem append_sep_inj {sep : Char} :
    ∀ {a₁ a₂ b₁ b₂ : List Char}, sep ∉ a₁ → sep ∉ a₂ →
      a₁ ++ sep :: b₁ = a₂ ++ sep :: b₂ → a₁ = a₂ ∧ b₁ = b₂ := by
  intro a₁
  induction a₁ with
  | nil =>
      intro a₂ b₁ b₂ _ h₂ h
      cases a₂ with
      | nil => simpa using h
      | cons d a₂ =>
          simp only [List.nil_append, List.cons_append, List.cons.injEq] at h
          exact absurd (h.1 ▸ List.mem_cons_self d a₂) h₂
  | cons c a₁ ih =>
      intro a₂ b₁ b₂ h₁ h₂ h
      cases a₂ with
      | nil =>
          simp only [List.cons_append, List.nil_append, List.cons.injEq] at h
          exact absurd (h.1 ▸ List.mem_cons_self c a₁) h₁
      | cons d a₂ =>
          simp only [List.cons_append, List.cons.injEq] at h
          obtain ⟨hcd, hrest⟩ := h
          have hs₁ : sep ∉ a₁ := fun hm => h₁ (List.mem_cons_of_mem c hm)
          have hs₂ : sep ∉ a₂ := fun hm => h₂ (List.mem_cons_of_mem d hm)
          obtain ⟨ha, hb⟩ := ih hs₁ hs₂ hrest
          exact ⟨by rw [hcd, ha], hb⟩

theorem bind_jsonEscapeChar_clean {s : List Char} (h1 : '"' ∉ s) (h2 : '\\' ∉ s) :
    s.flatMap jsonEscapeChar = s := by
  induction s with
  | nil => rfl
  | cons c rest ih =>
      simp only [List.mem_cons, not_or] at h1 h2
      have hc : jsonEscapeChar c = [c] := by
        unfold jsonEscapeChar
        rw [if_neg (by push_neg; exact ⟨Ne.symm h1.1, Ne.symm h2.1⟩)]
      rw [List.flatMap_cons, hc, ih h1.2 h2.2]
      rfl

theorem stage1ParamStr_inj
    {m₁ m₂ t₁ t₂ : List Char} {l₁ l₂ : Option (List Char)}
    (hq₁ : '"' ∉ m₁) (hb₁ : '\\' ∉ m₁) (hq₂ : '"' ∉ m₂) (hb₂ : '\\' ∉ m₂)
    (hl₁ : ∀ s, l₁ = some s → '"' ∉ s ∧ '\\' ∉ s)
    (hl₂ : ∀ s, l₂ = some s → '"' ∉ s ∧ '\\' ∉ s)
    (ht₁ : '\x7d' ∉ t₁) (ht₂ : '\x7d' ∉ t₂)
    (h : stage1ParamStr m₁ l₁ t₁ = stage1ParamStr m₂ l₂ t₂) :
    m₁ = m₂ ∧ l₁ = l₂ ∧ t₁ = t₂ := by
  rcases l₁ with _ | s₁ <;> rcases l₂ with _ | s₂
  · simp only [stage1ParamStr, jsonOptStringLit, jsonStringLit,
      bind_jsonEscapeChar_clean hq₁ hb₁, bind_jsonEscapeChar_clean hq₂ hb₂,
      List.cons_append, List.nil_append, List.append_assoc, List.cons.injEq,
      true_and, String.data] at h
    obtain ⟨hm, h⟩ := append_sep_inj hq₁ hq₂ h
    simp only [List.cons.injEq, true_and] at h
    obtain ⟨ht, -⟩ := append_sep_inj ht₁ ht₂ h
    exact ⟨hm, rfl, ht⟩
  · exfalso
    simp only [stage1ParamStr, jsonOptStringLit, jsonStringLit,
      List.cons_append, List.nil_append, List.append_assoc, List.cons.injEq,
      true_and, String.data] at h
    exact absurd h.1 (by decide)
  · exfalso
    simp only [stage1ParamStr, jsonOptStringLit, jsonStringLit,
      List.cons_append, List.nil_append, List.append_assoc, List.cons.injEq,
      true_and, String.data] at h
    exact absurd h.1 (by decide)
  · obtain ⟨hsq₁, hsb₁⟩ := hl₁ s₁ rfl
    obtain ⟨hsq₂, hsb₂⟩ := hl₂ s₂ rfl
    simp only [stage1ParamStr, jsonOptStringLit, jsonStringLit,
      bind_jsonEscapeChar_clean hq₁ hb₁, bind_jsonEscapeChar_clean hq₂ hb₂,
      bind_jsonEscapeChar_clean hsq₁ hsb₁, bind_jsonEscapeChar_clean hsq₂ hsb₂,
      List.cons_append, List.nil_append, List.append_assoc, List.cons.injEq,
      true_and, String.data] at h
    obtain ⟨hs, h⟩ := append_sep_inj hsq₁ hsq₂ h
    simp only [List.cons.injEq, true_and] at h
    obtain ⟨hm, h⟩ := append_sep_inj hq₁ hq₂ h
    simp only [List.cons.injEq, true_and] at h
    obtain ⟨ht, -⟩ := append_sep_inj ht₁ ht₂ h
    exact ⟨hm, by rw [hs], ht⟩


theorem stage1Combined_inj
    {fh₁ fh₂ mt₁ mt₂ m₁ m₂ t₁ t₂ : List Char} {l₁ l₂ : Option (List Char)}
    (hfh₁ : ':' ∉ fh₁) (hfh₂ : ':' ∉ fh₂) (hmt₁ : ':' ∉ mt₁) (hmt₂ : ':' ∉ mt₂)
    (h : stage1Combined fh₁ mt₁ m₁ l₁ t₁ = stage1Combined fh₂ mt₂ m₂ l₂ t₂) :
    fh₁ = fh₂ ∧ mt₁ = mt₂ ∧ stage1ParamStr m₁ l₁ t₁ = stage1ParamStr m₂ l₂ t₂ := by
  simp only [stage1Combined, List.cons_append, List.nil_append, List.append_assoc,
    List.cons.injEq, true_and, String.data] at h
  obtain ⟨h1, h⟩ := append_sep_inj hfh₁ hfh₂ h
  obtain ⟨h2, h3⟩ := append_sep_inj hmt₁ hmt₂ h
  exact ⟨h1, h2, h3⟩

/-- C4: the Stage-1 cache key is a deterministic function of the five
determining parameters (file content hash, file mtime, transcription
model, language hint, temperature): identical parameters give the
identical key by computation, and — provided the external truncated
SHA-256 does not collide on the two fingerprint strings (`hH`) and the
parameters are rendered from their value domains (hex digest and float
renderings contain no `:`; model and language contain no quote or
backslash; the temperature rendering contains no `}`) — changing any
single parameter (or several) changes the key: key equality holds iff
all five parameters agree. -/
theorem C4_cache_key_determinism_sensitivity
    (H : List Char → List Char)
    (fh₁ fh₂ mt₁ mt₂ m₁ m₂ t₁ t₂ : List Char) (l₁ l₂ : Option (List Char))
    (hfh₁ : ':' ∉ fh₁) (hfh₂ : ':' ∉ fh₂) (hmt₁ : ':' ∉ mt₁) (hmt₂ : ':' ∉ mt₂)
    (hq₁ : '"' ∉ m₁) (hb₁ : '\\' ∉ m₁) (hq₂ : '"' ∉ m₂) (hb₂ : '\\' ∉ m₂)
    (hl₁ : ∀ s, l₁ = some s → '"' ∉ s ∧ '\\' ∉ s)
    (hl₂ : ∀ s, l₂ = some s → '"' ∉ s ∧ '\\' ∉ s)
    (ht₁ : '\x7d' ∉ t₁) (ht₂ : '\x7d' ∉ t₂)
    (hH : (H (stage1Combined fh₁ mt₁ m₁ l₁ t₁)).take 16
        = (H (stage1Combined fh₂ mt₂ m₂ l₂ t₂)).take 16 →
        stage1Combined fh₁ mt₁ m₁ l₁ t₁ = stage1Combined fh₂ mt₂ m₂ l₂ t₂) :
    get_cache_key_stage1 H fh₁ mt₁ m₁ l₁ t₁ = get_cache_key_stage1 H fh₂ mt₂ m₂ l₂ t₂
      ↔ (fh₁ = fh₂ ∧ mt₁ = mt₂ ∧ m₁ = m₂ ∧ l₁ = l₂ ∧ t₁ = t₂) := by
  constructor
  · intro h
    have hcomb := hH h
    obtain ⟨h1, h2, hp⟩ := stage1Combined_inj hfh₁ hfh₂ hmt₁ hmt₂ hcomb
    obtain ⟨hm, hl, ht⟩ := stage1ParamStr_inj hq₁ hb₁ hq₂ hb₂ hl₁ hl₂ ht₁ ht₂ hp
    exact ⟨h1, h2, hm, hl, ht⟩
  · rintro ⟨rfl, rfl, rfl, rfl, rfl⟩
    rfl

/-- C4 witness: two invocations differing only in the file content hash
produce different keys (hash instantiated with a function that is
collision-free on the two concrete fingerprints). -/
theorem C4_witness :
    get_cache_key_stage1 id "a".data "0".data "whisper-1".data none "0.0".data
      ≠ get_cache_key_stage1 id "b".data "0".data "whisper-1".data none "0.0".data := by
  intro h
  have hiff := (C4_cache_key_determinism_sensitivity id "a".data "b".data "0".data "0".data
      "whisper-1".data "whisper-1".data "0.0".data "0.0".data none none
      (by decide) (by decide) (by decide) (by decide)
      (by decide) (by decide) (by decide) (by decide)
      (fun s hs => by cases hs) (fun s hs => by cases hs)
      (by decide) (by decide)
      (fun htk => absurd htk (by decide))).mp h
  exact absurd hiff.1 (by decide)


/-- A transcript segment as consumed by the analyzer: the `'speaker'`
and `'text'` keys of the segment dicts. -/
structure ASeg where
  speaker : String
  text : String

/-- Python `str.strip()`: remove leading and trailing whitespace. -/
def pyStrip (s : List Char) : List Char :=
  ((s.dropWhile Char.isWhitespace).reverse.dropWhile Char.isWhitespace).reverse

/-- Python `str.lower()` on the ASCII letters the patterns can produce
(`Char.toLower` lowers exactly `A`-`Z`). -/
def pyLower (s : List Char) : List Char := s.map Char.toLower

/-- An ASCII letter: what `[A-Z]` and `[a-z]` match under
`re.IGNORECASE`. -/
def isAsciiLetter (c : Char) : Bool :=
  ('A' ≤ c && c ≤ 'Z') || ('a' ≤ c && c ≤ 'z')

/-- Case-insensitive literal match at the start of `s` (the literal is
given lowercase); returns the remainder on success.  Models a literal
regex token under `re.IGNORECASE`. -/
def matchLiteralCI : List Char → List Char → Option (List Char)
  | [], s => some s
  | _ :: _, [] => none
  | l :: ls, c :: cs => if c.toLower = l then matchLiteralCI ls cs else none

/-- First alternative that matches (regex alternation tries
left-to-right). -/
def matchAltCI : List (List Char) → List Char → Option (List Char)
  | [], _ => none
  | alt :: alts, s =>
      match matchLiteralCI alt s with
      | some r => some r
      | none => matchAltCI alts s

/-- `\s+`: one or more whitespace characters, greedy.  (Whitespace and
letters are disjoint, so greediness is exact here.) -/
def skipWs1 : List Char → Option (List Char)
  | [] => none
  | c :: cs => if c.isWhitespace then some (cs.dropWhile Char.isWhitespace) else none

/-- `,?`: one optional comma. -/
def optComma : List Char → List Char
  | ',' :: cs => cs
  | s => s

/-- `([A-Z][a-z]+)` under `re.IGNORECASE`: a letter followed by one or
more letters, greedy; returns (capture, remainder). -/
def captureNameAt : List Char → Option (List Char × List Char)
  | [] => none
  | c :: cs =>
      if isAsciiLetter c then
        let run := cs.takeWhile isAsciiLetter
        if run.isEmpty then none
        else some (c :: run, cs.dropWhile isAsciiLetter)
      else none

/-- Intro pattern 1 (speaker_quality_analyzer.py line 113):
`(?:hi|hello|hey),?\s*(?:this is|i'm|i am|my name is)\s+([A-Z][a-z]+)`. -/
def introP1At (s : List Char) : Option (List Char × List Char) := do
  let r₁ ← matchAltCI ["hi".data, "hello".data, "hey".data] s
  let r₂ := (optComma r₁).dropWhile Char.isWhitespace
  let r₃ ← matchAltCI ["this is".data, "i'm".data, "i am".data, "my name is".data] r₂
  let r₄ ← skipWs1 r₃
  captureNameAt r₄

/-- Intro pattern 2 (line 114): `(?:this is|i'm|i am)\s+([A-Z][a-z]+)`. -/
def introP2At (s : List Char) : Option (List Char × List Char) := do
  let r₁ ← matchAltCI ["this is".data, "i'm".data, "i am".data] s
  let r₂ ← skipWs1 r₁
  captureNameAt r₂

/-- Intro pattern 3 (line 115): `my name is\s+([A-Z][a-z]+)`. -/
def introP3At (s : List Char) : Option (List Char × List Char) := do
  let r₁ ← matchLiteralCI "my name is".data s
  let r₂ ← skipWs1 r₁
  captureNameAt r₂

/-- `re.search`: try the pattern at each position, leftmost match wins;
`none` when no position matches (our patterns never match the empty
suffix: each consumes at least one character). -/
def searchPat (patAt : List Char → Option (List Char × List Char)) :
    List Char → Option (List Char × List Char)
  | [] => none
  | s@(_ :: cs) =>
      match patAt s with
      | some r => some r
      | none => searchPat patAt cs

/-- The `for pattern in intro_patterns: … break` loop of
`_find_self_introductions`: first pattern (in order) that matches
anywhere in the text supplies the captured group. -/
def searchIntroPatterns (text : List Char) : Option (List Char) :=
  match searchPat introP1At text with
  | some (cap, _) => some cap
  | none =>
      match searchPat introP2At text with
      | some (cap, _) => some cap
      | none =>
          match searchPat introP3At text with
          | some (cap, _) => some cap
          | none => none

/-- `_find_self_introductions` (speaker_quality_analyzer.py lines
103-134).  Each segment's text is `strip()`ped **and lowercased** before
the `re.search`; the first match per not-yet-resolved speaker label is
recorded. -/
def introStep (intros : SDict) (seg : ASeg) : SDict :=
  let speaker := seg.speaker
  let text := pyLower (pyStrip seg.text.data)
  if text.isEmpty || speaker = "" then intros
  else
    match searchIntroPatterns text with
    | some name =>
        if (dictGet intros speaker).isSome then intros
        else intros ++ [(speaker, String.mk name)]
    | none => intros

def _find_self_introductions (segments : List ASeg) : SDict :=
  segments.foldl introStep []

/-- Mentioned pattern 1 (line 82):
`(?:thanks|thank you|hi|hello|hey),?\s+([A-Z][a-z]+)`. -/
def mentionedP1At (s : List Char) : Option (List Char × List Char) := do
  let r₁ ← matchAltCI ["thanks".data, "thank you".data, "hi".data, "hello".data, "hey".data] s
  let r₂ ← skipWs1 (optComma r₁)
  captureNameAt r₂

/-- Mentioned pattern 2 (line 83):
`(?:this is|i'm|i am|my name is)\s+([A-Z][a-z]+)`. -/
def mentionedP2At (s : List Char) : Option (List Char × List Char) := do
  let r₁ ← matchAltCI ["this is".data, "i'm".data, "i am".data, "my name is".data] s
  let r₂ ← skipWs1 r₁
  captureNameAt r₂

/-- Mentioned pattern 3 (line 84):
`([A-Z][a-z]+)\s+(?:said|mentioned|told|asked)`. -/
def mentionedP3At (s : List Char) : Option (List Char × List Char) := do
  let (cap, r₁) ← captureNameAt s
  let r₂ ← skipWs1 r₁
  let r₃ ← matchAltCI ["said".data, "mentioned".data, "told".data, "asked".data] r₂
  pure (cap, r₃)

/-- Mentioned pattern 4 (line 85):
`([A-Z][a-z]+)'s\s+(?:meeting|call|interview)`. -/
def mentionedP4At (s : List Char) : Option (List Char × List Char) := do
  let (cap, r₁) ← captureNameAt s
  let r₂ ← matchLiteralCI "'s".data r₁
  let r₃ ← skipWs1 r₂
  let r₄ ← matchAltCI ["meeting".data, "call".data, "interview".data] r₃
  pure (cap, r₄)

/-- `re.findall`: scan left to right; on a match, collect the capture
and continue after the end of the match (non-overlapping); otherwise
advance one position.  Fuel-bounded recursion; every pattern consumes
at least one character, so `length + 1` fuel is exact. -/
def findAllAux (patAt : List Char → Option (List Char × List Char)) :
    Nat → List Char → List (List Char)
  | 0, _ => []
  | _ + 1, [] => []
  | fuel + 1, s@(_ :: cs) =>
      match patAt s with
      | some (cap, r) => cap :: findAllAux patAt fuel r
      | none => findAllAux patAt fuel cs

def findAll (patAt : List Char → Option (List Char × List Char))
    (s : List Char) : List (List Char) :=
  findAllAux patAt (s.length + 1) s

/-- Python `set.add` on the model of a set as a duplicate-free list. -/
def insertSet (l : List String) (x : String) : List String :=
  if x ∈ l then l else l ++ [x]

/-- `_extract_mentioned_names` (speaker_quality_analyzer.py lines
76-100).  The text is `strip()`ped but **not** lowercased, so captures
keep their original capitalization; the stop-word filter compares
lowercased captures against the five common words. -/
def _extract_mentioned_names (segments : List ASeg) : List String :=
  segments.foldl (fun mentioned seg =>
    let text := pyStrip seg.text.data
    if text.isEmpty then mentioned
    else
      [mentionedP1At, mentionedP2At, mentionedP3At, mentionedP4At].foldl
        (fun acc patAt =>
          (findAll patAt text).foldl (fun a cap =>
            if String.mk (pyLower cap) ∈ ["the", "this", "that", "there", "here"]
            then a
            else insertSet a (String.mk cap)) acc)
        mentioned) []

set_option linter.unusedVariables false in
/-- `identify_actual_speakers_vs_mentioned` (speaker_quality_analyzer.py
lines 236-258): `actual_speakers = set(self_introductions.values())`,
`mentioned_only = mentioned_names - actual_speakers` (the `segments`
argument is accepted but never consumed). -/
def identify_actual_speakers_vs_mentioned (segments : List ASeg)
    (analysis : SpeakerAnalysis) : List String × List String :=
  let actual_speaker_names := analysis.self_introductions.map Prod.snd
  let mentioned_only := analysis.mentioned_names.filter
    (fun n => n ∉ actual_speaker_names)
  (actual_speaker_names, mentioned_only)


theorem uint32_le_iff (a b : UInt32) : a ≤ b ↔ a.toNat ≤ b.toNat := by
  simp [UInt32.le_def, BitVec.le_def, UInt32.toNat]

theorem char_ofNat_toNat {m : Nat} (h : m.isValidChar) : (Char.ofNat m).toNat = m := by
  rw [Char.ofNat, dif_pos h]
  rfl

theorem char_isUpper_iff (c : Char) : c.isUpper = true ↔ (65 ≤ c.toNat ∧ c.toNat ≤ 90) := by
  unfold Char.isUpper
  rw [Bool.and_eq_true, decide_eq_true_iff, decide_eq_true_iff]
  constructor
  · rintro ⟨h1, h2⟩
    exact ⟨(uint32_le_iff 65 c.val).mp h1, (uint32_le_iff c.val 90).mp h2⟩
  · rintro ⟨h1, h2⟩
    exact ⟨(uint32_le_iff 65 c.val).mpr h1, (uint32_le_iff c.val 90).mpr h2⟩

/-- `str.lower()` output never contains an (ASCII) uppercase letter. -/
theorem toLower_isUpper_false (c : Char) : (Char.toLower c).isUpper = false := by
  unfold Char.toLower
  by_cases h : c.toNat ≥ 65 ∧ c.toNat ≤ 90
  · rw [if_pos h]
    have hvalid : (c.toNat + 32).isValidChar := Or.inl (by omega)
    rw [Bool.eq_false_iff]
    intro hup
    have := (char_isUpper_iff _).mp hup
    rw [char_ofNat_toNat hvalid] at this
    omega
  · rw [if_neg h]
    rw [Bool.eq_false_iff]
    intro hup
    exact h ((char_isUpper_iff c).mp hup)

theorem matchLiteralCI_suffix :
    ∀ (ls s r : List Char), matchLiteralCI ls s = some r → r <:+ s := by
  intro ls
  induction ls with
  | nil =>
      intro s r h
      simp only [matchLiteralCI, Option.some.injEq] at h
      exact h ▸ List.suffix_refl s
  | cons l ls ih =>
      intro s r h
      cases s with
      | nil => simp [matchLiteralCI] at h
      | cons c cs =>
          simp only [matchLiteralCI] at h
          split at h
          · exact (ih cs r h).trans (List.suffix_cons c cs)
          · cases h

theorem matchAltCI_suffix :
    ∀ (alts : List (List Char)) (s r : List Char),
      matchAltCI alts s = some r → r <:+ s := by
  intro alts
  induction alts with
  | nil => intro s r h; cases h
  | cons alt alts ih =>
      intro s r h
      simp only [matchAltCI] at h
      rcases hm : matchLiteralCI alt s with _ | r₁
      · rw [hm] at h
        exact ih s r h
      · rw [hm] at h
        cases h
        exact matchLiteralCI_suffix alt s r hm

theorem skipWs1_suffix {s r : List Char} (h : skipWs1 s = some r) : r <:+ s := by
  cases s with
  | nil => cases h
  | cons c cs =>
      simp only [skipWs1] at h
      split at h
      · cases h
        exact (List.dropWhile_suffix _).trans (List.suffix_cons c cs)
      · cases h

theorem optComma_suffix (s : List Char) : optComma s <:+ s := by
  unfold optComma
  split
  · exact List.suffix_cons _ _
  · exact List.suffix_refl _

theorem captureNameAt_mem {s : List Char} {cap r : List Char}
    (h : captureNameAt s = some (cap, r)) : ∀ c ∈ cap, c ∈ s := by
  cases s with
  | nil => cases h
  | cons c cs =>
      simp only [captureNameAt] at h
      split at h
      · split at h
        · cases h
        · simp only [Option.some.injEq, Prod.mk.injEq] at h
          intro x hx
          rw [← h.1] at hx
          rcases List.mem_cons.mp hx with h1 | h1
          · exact h1 ▸ List.mem_cons_self c cs
          · exact List.mem_cons_of_mem c ((List.takeWhile_sublist _).mem h1)
      · cases h

theorem introP1At_mem {s cap r : List Char}
    (h : introP1At s = some (cap, r)) : ∀ c ∈ cap, c ∈ s := by
  simp only [introP1At, Option.bind_eq_bind, Option.bind_eq_some] at h
  obtain ⟨r₁, h₁, h⟩ := h
  obtain ⟨r₃, h₃, h⟩ := h
  obtain ⟨r₄, h₄, h⟩ := h
  intro c hc
  have m1 := captureNameAt_mem h c hc
  have m2 := (skipWs1_suffix h₄).subset m1
  have m3 := (matchAltCI_suffix _ _ _ h₃).subset m2
  have m4 : c ∈ optComma r₁ := (List.dropWhile_suffix _).subset m3
  have m5 : c ∈ r₁ := (optComma_suffix r₁).subset m4
  exact (matchAltCI_suffix _ _ _ h₁).subset m5

theorem introP2At_mem {s cap r : List Char}
    (h : introP2At s = some (cap, r)) : ∀ c ∈ cap, c ∈ s := by
  simp only [introP2At, Option.bind_eq_bind, Option.bind_eq_some] at h
  obtain ⟨r₁, h₁, h⟩ := h
  obtain ⟨r₂, h₂, h⟩ := h
  intro c hc
  have m1 := captureNameAt_mem h c hc
  have m2 := (skipWs1_suffix h₂).subset m1
  exact (matchAltCI_suffix _ _ _ h₁).subset m2

theorem introP3At_mem {s cap r : List Char}
    (h : introP3At s = some (cap, r)) : ∀ c ∈ cap, c ∈ s := by
  simp only [introP3At, Option.bind_eq_bind, Option.bind_eq_some] at h
  obtain ⟨r₁, h₁, h⟩ := h
  obtain ⟨r₂, h₂, h⟩ := h
  intro c hc
  have m1 := captureNameAt_mem h c hc
  have m2 := (skipWs1_suffix h₂).subset m1
  exact (matchLiteralCI_suffix _ _ _ h₁).subset m2

theorem searchPat_mem {patAt : List Char → Option (List Char × List Char)}
    (hpat : ∀ {s cap r : List Char}, patAt s = some (cap, r) → ∀ c ∈ cap, c ∈ s) :
    ∀ {s cap r : List Char}, searchPat patAt s = some (cap, r) → ∀ c ∈ cap, c ∈ s := by
  intro s
  induction s with
  | nil => intro cap r h; cases h
  | cons x cs ih =>
      intro cap r h
      simp only [searchPat] at h
      rcases hm : patAt (x :: cs) with _ | p
      · rw [hm] at h
        intro c hc
        exact List.mem_cons_of_mem x (ih h c hc)
      · rw [hm] at h
        cases h
        exact hpat hm

theorem searchIntroPatterns_mem {text name : List Char}
    (h : searchIntroPatterns text = some name) : ∀ c ∈ name, c ∈ text := by
  unfold searchIntroPatterns at h
  rcases h1 : searchPat introP1At text with _ | ⟨cap1, r1⟩ <;> rw [h1] at h
  · rcases h2 : searchPat introP2At text with _ | ⟨cap2, r2⟩ <;> rw [h2] at h
    · rcases h3 : searchPat introP3At text with _ | ⟨cap3, r3⟩ <;> rw [h3] at h
      · cases h
      · cases h
        exact searchPat_mem (fun hm => introP3At_mem hm) h3
    · cases h
      exact searchPat_mem (fun hm => introP2At_mem hm) h2
  · cases h
    exact searchPat_mem (fun hm => introP1At_mem hm) h1

theorem introStep_lowercase {intros : SDict} {seg : ASeg}
    (hacc : ∀ p ∈ intros, ∀ c ∈ p.2.data, c.isUpper = false) :
    ∀ p ∈ introStep intros seg, ∀ c ∈ p.2.data, c.isUpper = false := by
  intro p hp
  unfold introStep at hp
  dsimp only at hp
  split at hp
  · exact hacc p hp
  · rcases hs : searchIntroPatterns (pyLower (pyStrip seg.text.data)) with _ | name <;>
      rw [hs] at hp <;> dsimp only at hp
    · exact hacc p hp
    · split at hp
      · exact hacc p hp
      · rcases List.mem_append.mp hp with h1 | h1
        · exact hacc p h1
        · simp only [List.mem_singleton] at h1
          subst h1
          intro c hc
          have hmem := searchIntroPatterns_mem hs c hc
          simp only [pyLower, List.mem_map] at hmem
          obtain ⟨d, _, hd⟩ := hmem
          rw [← hd]
          exact toLower_isUpper_false d

theorem find_self_introductions_aux :
    ∀ (segments : List ASeg) (intros : SDict),
      (∀ p ∈ intros, ∀ c ∈ p.2.data, c.isUpper = false) →
      ∀ p ∈ segments.foldl introStep intros, ∀ c ∈ p.2.data, c.isUpper = false := by
  intro segments
  induction segments with
  | nil => intro intros hacc; simpa using hacc
  | cons seg rest ih =>
      intro intros hacc
      simp only [List.foldl_cons]
      exact ih (introStep intros seg) (introStep_lowercase hacc)


/-- C10: every name value stored by `_find_self_introductions` is
extracted from the lowercased segment text and therefore contains no
uppercase letter (for all inputs), while `_extract_mentioned_names`
works on the original text and keeps capitalization; consequently, at
the concrete input where SPEAKER_00 says "My name is Alice.", the
self-introduction is recorded as "alice", the mentioned names as
"Alice", and the mentioned-only set `mentioned_names −
self_introductions.values()` still contains the capitalized "Alice"
even though the speaker bearing that name self-introduced. -/
theorem C10_self_intro_lowercase_vs_mentioned_case :
    (∀ (segments : List ASeg) (p : String × String),
        p ∈ _find_self_introductions segments → ∀ c ∈ p.2.data, c.isUpper = false)
    ∧ (_find_self_introductions [⟨"SPEAKER_00", "My name is Alice."⟩]
        = [("SPEAKER_00", "alice")]
      ∧ _extract_mentioned_names [⟨"SPEAKER_00", "My name is Alice."⟩] = ["Alice"]
      ∧ (identify_actual_speakers_vs_mentioned [⟨"SPEAKER_00", "My name is Alice."⟩]
          { unique_speaker_labels := ["SPEAKER_00"], speaker_count := 1,
            mentioned_names := _extract_mentioned_names [⟨"SPEAKER_00", "My name is Alice."⟩],
            self_introductions := _find_self_introductions [⟨"SPEAKER_00", "My name is Alice."⟩],
            meeting_type := none, quality_score := 1, issues := [] }).2 = ["Alice"]) := by
  constructor
  · intro segments p hp
    exact find_self_introductions_aux segments [] (by intro q hq; cases hq) p hp
  · exact ⟨by decide, by decide, by decide⟩

/-- C10 witness: the general lowercase property applied at the concrete
self-introduction. -/
theorem C10_witness : ('a' : Char).isUpper = false :=
  (C10_self_intro_lowercase_vs_mentioned_case).1
    [⟨"SPEAKER_00", "My name is Alice."⟩] ("SPEAKER_00", "alice") (by decide) 'a' (by decide)


end MTT
